import Mathlib

/-!
Verification of the mvp_relay NMEA relay program (`src/mvp_relay.py`).

The embedding models Python strings as `List Char`.  Python's
`str.split(sep)` for a one-character separator is `splitChar`, `str.find`
is `pyFind` (−1 for "not found"), the slices `s[i:]` / `s[:j]` with
possibly negative indices are `pySliceFrom` / `pySliceTo`, and
`str.strip()` is `pyStrip`.

Python `float` values appearing in depth fields are modelled exactly as
scaled decimals (`Decimal`, an integer numerator over a power of ten),
whose rational value is `Decimal.toRat`; `parseFloat` models `float()` on
the plain decimal literals that occur in NMEA depth fields and fails
(`none`, i.e. a `ValueError`) on anything else.  A `Decimal` is zero
exactly when its numerator is zero (`Decimal.toRat_eq_zero`), so the
program's `depth != 0` comparisons are modelled by numerator tests.

Fallible Python code is modelled with `Option`/`Except`: an uncaught
`IndexError` or `ValueError` inside `relayMessage` is `Except.error ()`,
and `msg_split` applied to an empty chunk (where `msg[0]` raises) is
`none`.  A datagram send attempt is recorded as a `Send`; its `encoded`
flag records whether the payload was encoded to bytes (`.encode()`) before
`sendto` — in Python 3 passing an unencoded `str` to `socket.sendto`
raises `TypeError`, which the surrounding bare `except` catches, so only
encoded attempts can put a datagram on the wire.
-/

namespace MvpRelay

instance {ε α : Type} [DecidableEq ε] [DecidableEq α] :
    DecidableEq (Except ε α) := fun a b =>
  match a, b with
  | Except.ok x, Except.ok y =>
    if h : x = y then isTrue (by rw [h])
    else isFalse (by intro hh; cases hh; exact h rfl)
  | Except.error x, Except.error y =>
    if h : x = y then isTrue (by rw [h])
    else isFalse (by intro hh; cases hh; exact h rfl)
  | Except.ok _, Except.error _ => isFalse (by intro hh; cases hh)
  | Except.error _, Except.ok _ => isFalse (by intro hh; cases hh)

/-- Characters of a string literal; Python strings are `List Char` here. -/
def str (s : String) : List Char := s.data

/-- Python `s.split(c)` for a single-character separator: always returns a
non-empty list, with empty pieces for adjacent separators. -/
def splitChar (c : Char) : List Char → List (List Char)
  | [] => [[]]
  | x :: xs =>
    if x = c then [] :: splitChar c xs
    else
      match splitChar c xs with
      | [] => [[x]]
      | y :: ys => (x :: y) :: ys

/-- Index of the first occurrence of `c`, if any. -/
def findIdx (c : Char) : List Char → Option Nat
  | [] => none
  | x :: xs => if x = c then some 0 else (findIdx c xs).map (· + 1)

/-- Python `s.find(c)`: the first index of `c`, or `-1` when absent. -/
def pyFind (c : Char) (l : List Char) : Int :=
  match findIdx c l with
  | none => -1
  | some n => n

/-- Python slice `s[i:]` for a possibly negative `i`. -/
def pySliceFrom (l : List Char) (i : Int) : List Char :=
  if 0 ≤ i then l.drop i.toNat
  else l.drop (l.length - (-i).toNat)

/-- Python slice `s[:j]` for a possibly negative `j`. -/
def pySliceTo (l : List Char) (j : Int) : List Char :=
  if 0 ≤ j then l.take j.toNat
  else l.take (l.length - (-j).toNat)

/-- Characters stripped by Python `str.strip()` (ASCII whitespace). -/
def isPySpace (c : Char) : Bool :=
  c = ' ' || c = '\t' || c = '\n' || c = '\x0d' || c.toNat = 11 || c.toNat = 12

/-- Python `s.strip()`. -/
def pyStrip (l : List Char) : List Char :=
  ((l.dropWhile isPySpace).reverse.dropWhile isPySpace).reverse

/-- An exact scaled decimal `num / 10 ^ exp`, the model of the Python
`float` values produced by `float()` on the decimal literals in NMEA depth
fields (those values are compared with zero and added, both of which this
representation captures exactly). -/
structure Decimal where
  num : Int
  exp : Nat
deriving DecidableEq

/-- The rational value of a `Decimal`. -/
def Decimal.toRat (d : Decimal) : ℚ := (d.num : ℚ) / (10 : ℚ) ^ d.exp

/-- Sum of two decimals (`depthBelowT + float(offsetStr)` in the source). -/
def Decimal.add (a b : Decimal) : Decimal :=
  ⟨a.num * 10 ^ b.exp + b.num * 10 ^ a.exp, a.exp + b.exp⟩

/-- Numeric value of a decimal digit character. -/
def digitVal (c : Char) : Nat := c.toNat - 48

/-- Value of a list of decimal digit characters. -/
def digitsToNat (cs : List Char) : Nat :=
  cs.foldl (fun a c => a * 10 + digitVal c) 0

/-- Unsigned part of Python `float()` on a plain decimal literal:
digits with at most one decimal point, at least one digit overall. -/
def parseUnsigned (cs : List Char) : Option Decimal :=
  match splitChar '.' cs with
  | [ip] =>
    if ip ≠ [] ∧ ip.all Char.isDigit then some ⟨digitsToNat ip, 0⟩ else none
  | [ip, fp] =>
    if (ip ≠ [] ∨ fp ≠ []) ∧ ip.all Char.isDigit ∧ fp.all Char.isDigit then
      some ⟨digitsToNat ip * 10 ^ fp.length + digitsToNat fp, fp.length⟩
    else none
  | _ => none

/-- Python `float()` on the plain decimal literals found in NMEA depth
fields (optional sign, digits, optional fraction); `none` models the
`ValueError` raised on non-numeric text. -/
def parseFloat (cs : List Char) : Option Decimal :=
  match cs with
  | '-' :: rest => (parseUnsigned rest).map (fun d => ⟨-d.num, d.exp⟩)
  | '+' :: rest => parseUnsigned rest
  | _ => parseUnsigned cs

/-- Running bitwise XOR of the character codes, as in the checksum loop of
`clean_nmea_str` (`checkSum = checkSum ^ ord(char)`). -/
def xorBytes (l : List Char) : Nat :=
  l.foldl (fun a c => a ^^^ c.toNat) 0

/-- Uppercase hexadecimal digit for `n < 16`. -/
def hexDigit (n : Nat) : Char :=
  if n < 10 then Char.ofNat (48 + n) else Char.ofNat (55 + n)

/-- Fuel-bounded worker for `toHexUpper`; fuel `n` always suffices since
`n / 16 < n` for `n ≥ 16`, and for `n < 16` the fuel is irrelevant. -/
def toHexUpperAux : Nat → Nat → List Char
  | 0, n => [hexDigit n]
  | fuel + 1, n =>
    if n < 16 then [hexDigit n]
    else toHexUpperAux fuel (n / 16) ++ [hexDigit (n % 16)]

/-- Python `hex(n)[2:].upper()`: natural-width uppercase hexadecimal
rendering with no zero padding (`hex(0)` gives `"0"`). -/
def toHexUpper (n : Nat) : List Char := toHexUpperAux n n

/-- The offset-6 repair of `clean_nmea_str`: if the character at offset 6
is not a comma, splice out offsets 6 and 7
(`nmeaStr = nmeaStr[:6] + nmeaStr[8:]`). -/
def repair6 (s : List Char) : List Char :=
  if s[6]? ≠ some ',' then s.take 6 ++ s.drop 8 else s

/-- `clean_nmea_str` from `src/mvp_relay.py` (lines 639–724), parametrised
by the `USECHECKSUMS` configuration constant (set to `True` in the
deployed source).  Returns the cleaned sentence and the `isGoodStr` flag,
following the source's control flow:
reject when shorter than 9; apply the offset-6 repair; reject when the
first character is not `'$'`; with checksums enabled, split on `'*'`
(reject when there is no `'*'`), keep a checksum string shorter than two
characters as-is (`isGoodStr = True`), otherwise truncate it to two
characters and reassemble, and finally compare against the computed
checksum rendering. -/
def clean_nmea_str (useChecksums : Bool) (s0 : List Char) : List Char × Bool :=
  if s0.length < 9 then (s0, false) else
  let s1 := repair6 s0
  if s1[0]? ≠ some '$' then (s1, false) else
  if useChecksums then
    let strs := splitChar '*' s1
    if strs.length < 2 then (s1, false) else
    let coreStr := strs.headI
    let checkSumStr := (strs[1]?.getD []).take 2
    let step5 :=
      if checkSumStr.length < 2 then (s1, checkSumStr)
      else (coreStr ++ '*' :: checkSumStr.take 2, checkSumStr.take 2)
    let newstr := toHexUpper (xorBytes (coreStr.drop 1))
    if newstr ≠ step5.2 then (step5.1, false) else (step5.1, true)
  else (s1, true)

theorem findIdx_some_ne_nil {c : Char} {l : List Char} {p : Nat}
    (h : findIdx c l = some p) : l ≠ [] := by
  intro hl
  subst hl
  simp [findIdx] at h

theorem pySliceFrom_nonneg (l : List Char) {i : Int} (h : 0 ≤ i) :
    pySliceFrom l i = l.drop i.toNat := by
  simp [pySliceFrom, h]

theorem pySliceFrom_nil (i : Int) : pySliceFrom [] i = [] := by
  unfold pySliceFrom
  split <;> simp

/-- Loop body of `msg_split` (lines 628–637): `pos = msg.find('$')`,
`pos2 = msg[pos+1:].find('$')`, append `msg[:pos2]`, continue on
`msg[pos2+1:]` while `pos2 > -1`.  The two cases of `pos2` (`-1` when no
further `'$'` exists, a non-negative index otherwise) are spelled out as a
match on `findIdx`, of which `pyFind` is the `-1`-coding. -/
def msgSplitGo (msg : List Char) : List (List Char) :=
  match h : findIdx '$' (pySliceFrom msg (pyFind '$' msg + 1)) with
  | none => [pySliceTo msg (-1)]
  | some p => pySliceTo msg (p : Int) :: msgSplitGo (pySliceFrom msg ((p : Int) + 1))
termination_by msg.length
decreasing_by
  have hne : msg ≠ [] := by
    intro hmsg
    subst hmsg
    rw [pySliceFrom_nil] at h
    simp [findIdx] at h
  rw [pySliceFrom_nonneg msg (by omega : (0 : Int) ≤ (p : Int) + 1)]
  have ht : ((p : Int) + 1).toNat = p + 1 := by omega
  rw [ht]
  simp only [List.length_drop]
  have hlen : 0 < msg.length := List.length_pos.mpr hne
  omega

/-- `msg_split` from `src/mvp_relay.py`: split a raw chunk into sentences.
`none` models the `IndexError` raised by `msg[0]` on an empty chunk;
a non-empty chunk not starting with `'$'` yields the empty list. -/
def msg_split (msg : List Char) : Option (List (List Char)) :=
  match msg with
  | [] => none
  | c :: _ => if c = '$' then some (msgSplitGo msg) else some []

/-- Python `l[:-3]` on a field: drop the final three characters
(empty when the field has three or fewer characters). -/
def dropLast3 (l : List Char) : List Char := l.take (l.length - 3)

/-- The comma-field preprocessing of `relayMessage` (lines 508–510):
`fields = msg.split(',')` followed by `fields[-1] = fields[-1][:-3]`. -/
def relayFields (msg : List Char) : List (List Char) :=
  let fields := splitChar ',' msg
  fields.set (fields.length - 1) (dropLast3 (fields.getLastD []))

/-- The talker identifier `nmeaID = fields[0]`, read from the split result
before the last field is truncated (`fields[0]` is captured as a string
before the list is mutated). -/
def relayNmeaID (msg : List Char) : List Char := (splitChar ',' msg).headI

/-- One `sendto` attempt on the outbound socket.  `encoded` records
whether `.encode()` was applied to the payload first; in Python 3 an
unencoded `str` payload makes `sendto` raise `TypeError` (caught by the
surrounding bare `except`), so only encoded attempts can succeed. -/
structure Send where
  payload : List Char
  encoded : Bool
deriving DecidableEq

/-- Number of send attempts that can actually deliver a datagram
(those whose payload was encoded to bytes). -/
def successfulSends (l : List Send) : Nat := (l.filter (·.encoded)).length

/-- `fields[i]`: `Except.error ()` models the `IndexError` raised when the
index is out of range. -/
def getField (fields : List (List Char)) (i : Nat) : Except Unit (List Char) :=
  match fields[i]? with
  | some f => Except.ok f
  | none => Except.error ()

/-- `float(s)`: `Except.error ()` models the `ValueError` on non-numeric
text. -/
def toFloat (s : List Char) : Except Unit Decimal :=
  match parseFloat s with
  | some d => Except.ok d
  | none => Except.error ()

/-- `relayMessage` from `src/mvp_relay.py` (lines 505–626), restricted to
its relay decision and send attempts (logging and the GUI timestamp are
omitted).  Returns the list of send attempts, or `Except.error ()` when an
uncaught `IndexError`/`ValueError` escapes (the source wraps only the
`sendto` calls in `try`).  The branch structure follows the source:
`$FKDBS` is *not* in the depth-datagram list (line 517), so it falls into
the unconditional pass-through branch and the dedicated `$FKDBS` depth
branch (lines 576–591) is unreachable; the final `else` is the `$SDDPT`
branch.  Zero tests `depth != 0` on `float` values are numerator tests on
the exact `Decimal` model. -/
def relayMessage (msg : List Char) : Except Unit (List Send) :=
  let fields0 := splitChar ',' msg
  let nmeaID := fields0.headI
  let fields := relayFields msg
  let isDepthDataGram :=
    nmeaID = str "$SDDBS" ∨ nmeaID = str "$SDDPT" ∨ nmeaID = str "$PKEL9"
  if msg.length = 0 then Except.ok []
  else if ¬ isDepthDataGram then
    if nmeaID = str "$HEHDT" then Except.ok []
    else Except.ok [⟨pyStrip msg ++ ['\n'], true⟩]
  else if nmeaID = str "$PKEL9" then do
    let depthStr ← getField fields 5
    let depth ← toFloat depthStr
    if depth.num ≠ 0 then pure [⟨msg, false⟩] else pure []
  else if nmeaID = str "$SDDBS" then do
    let depthStr ← getField fields 3
    let depth ← toFloat depthStr
    if depth.num ≠ 0 then pure [⟨msg, false⟩] else pure []
  else if nmeaID = str "$FKDBS" then do
    let depthStr ← getField fields 4
    let depth ← toFloat depthStr
    if depth.num ≠ 0 then pure [⟨msg, false⟩] else pure []
  else do
    let depthStr ← getField fields 1
    let offsetStr ← getField fields 2
    let depthBelowT ← toFloat depthStr
    let offset ← toFloat offsetStr
    let depthBelowS := depthBelowT.add offset
    let msg2 := pyStrip msg ++ ['\n']
    if depthBelowT.num ≠ 0 ∧ depthBelowS.num ≠ 0 then pure [⟨msg2, true⟩]
    else pure []

/-- The relay stage of the Dispatch Loop on a batch of validated
sentences: `processIncoming` runs `relayMessage` over the list with no
`try` of its own, and an escaping exception is caught only by the bare
`except` in `periodicCall`, which calls `endApplication` (clearing the
`running` flag).  Returns the send attempts made and the final state of
the `running` flag. -/
def dispatchRelay : List (List Char) → List Send × Bool
  | [] => ([], true)
  | m :: rest =>
    match relayMessage m with
    | Except.error _ => ([], false)
    | Except.ok sends =>
      let r := dispatchRelay rest
      (sends ++ r.1, r.2)

/-- A chunk assembled from sentences interleaved with one terminator byte
after each sentence (the transport framing `msg_split` undoes). -/
def joinChunks : List (List Char) → List Char → List Char
  | [], _ => []
  | _, [] => []
  | s :: ss, t :: ts => s ++ t :: joinChunks ss ts

/-- Conditions on a framed sentence: starts with the `'$'` delimiter
(hence non-empty) and contains no further delimiter. -/
def GoodSentence (s : List Char) : Prop :=
  s.head? = some '$' ∧ '$' ∉ s.tail

instance (s : List Char) : Decidable (GoodSentence s) := by
  unfold GoodSentence
  infer_instance

/-! ### Generic lemmas about the Python-string helpers -/

theorem splitChar_ne_nil (c : Char) (l : List Char) : splitChar c l ≠ [] := by
  induction l with
  | nil => simp [splitChar]
  | cons x xs ih =>
    simp only [splitChar]
    split
    · simp
    · cases h : splitChar c xs <;> simp

theorem splitChar_not_mem {c : Char} {l : List Char} (h : c ∉ l) :
    splitChar c l = [l] := by
  induction l with
  | nil => rfl
  | cons x xs ih =>
    simp only [List.mem_cons, not_or] at h
    have hx : ¬ x = c := fun hh => h.1 hh.symm
    have hxs := ih h.2
    simp [splitChar, hx, hxs]

theorem splitChar_append {c : Char} {xs : List Char} (ys : List Char)
    (h : c ∉ xs) :
    splitChar c (xs ++ c :: ys) = xs :: splitChar c ys := by
  induction xs with
  | nil => simp [splitChar]
  | cons x xs ih =>
    simp only [List.mem_cons, not_or] at h
    have hx : ¬ x = c := fun hh => h.1 hh.symm
    have hxs := ih h.2
    simp [splitChar, hx, hxs]

theorem findIdx_not_mem {c : Char} {l : List Char} (h : c ∉ l) :
    findIdx c l = none := by
  induction l with
  | nil => rfl
  | cons x xs ih =>
    simp only [List.mem_cons, not_or] at h
    have hx : ¬ x = c := fun hh => h.1 hh.symm
    simp [findIdx, hx, ih h.2]

theorem findIdx_cons_self (c : Char) (l : List Char) :
    findIdx c (c :: l) = some 0 := by
  simp [findIdx]

theorem findIdx_append_not_mem {c : Char} {xs : List Char} (ys : List Char)
    (h : c ∉ xs) :
    findIdx c (xs ++ ys) = (findIdx c ys).map (· + xs.length) := by
  induction xs with
  | nil => cases hys : findIdx c ys <;> simp [hys]
  | cons x xs ih =>
    simp only [List.mem_cons, not_or] at h
    have hx : ¬ x = c := fun hh => h.1 hh.symm
    have hxs := ih h.2
    cases hys : findIdx c ys with
    | none => simp_all [findIdx, hx]
    | some v => simp_all [findIdx, hx]; omega

theorem set_last_eq_dropLast_append {α : Type} (l : List α) (v : α)
    (h : l ≠ []) :
    l.set (l.length - 1) v = l.dropLast ++ [v] := by
  induction l with
  | nil => exact absurd rfl h
  | cons x xs ih =>
    cases xs with
    | nil => rfl
    | cons y ys =>
      have hxs : (y :: ys : List α) ≠ [] := by simp
      have := ih hxs
      simp only [List.length_cons, Nat.add_sub_cancel] at this ⊢
      simp [List.set, this]

theorem toHexUpperAux_of_lt {n : Nat} (f : Nat) (h : n < 16) :
    toHexUpperAux f n = [hexDigit n] := by
  cases f <;> simp [toHexUpperAux, h]

theorem toHexUpper_of_lt {n : Nat} (h : n < 16) :
    toHexUpper n = [hexDigit n] :=
  toHexUpperAux_of_lt n h

theorem toHexUpper_of_mid {n : Nat} (h1 : 16 ≤ n) (h2 : n < 256) :
    toHexUpper n = [hexDigit (n / 16), hexDigit (n % 16)] := by
  unfold toHexUpper
  cases n with
  | zero => omega
  | succ m =>
    have hdiv : (m + 1) / 16 < 16 := Nat.div_lt_of_lt_mul (by omega)
    simp only [toHexUpperAux, if_neg (by omega : ¬ m + 1 < 16)]
    rw [toHexUpperAux_of_lt m hdiv]
    rfl

theorem hexDigit_ne_star : ∀ m, m < 16 → hexDigit m ≠ '*' := by decide

theorem star_not_mem_toHexUpper {n : Nat} (h : n < 256) :
    '*' ∉ toHexUpper n := by
  rcases Nat.lt_or_ge n 16 with hlt | hge
  · rw [toHexUpper_of_lt hlt]
    simp [List.mem_singleton]
    exact fun hh => hexDigit_ne_star n hlt hh.symm
  · rw [toHexUpper_of_mid hge h]
    have hdiv : n / 16 < 16 := Nat.div_lt_of_lt_mul (by omega)
    have hmod : n % 16 < 16 := Nat.mod_lt _ (by omega)
    simp only [List.mem_cons, List.mem_singleton, not_or]
    exact ⟨fun hh => hexDigit_ne_star _ hdiv hh.symm,
           fun hh => hexDigit_ne_star _ hmod hh.symm, by simp⟩

/-! ### Lemmas about the sentence framer -/

theorem msgSplitGo_none {msg : List Char}
    (h : findIdx '$' (pySliceFrom msg (pyFind '$' msg + 1)) = none) :
    msgSplitGo msg = [pySliceTo msg (-1)] := by
  conv_lhs => rw [msgSplitGo.eq_def]
  split
  · rfl
  · rename_i p hp
    rw [h] at hp
    cases hp

theorem msgSplitGo_some {msg : List Char} {p : Nat}
    (h : findIdx '$' (pySliceFrom msg (pyFind '$' msg + 1)) = some p) :
    msgSplitGo msg =
      pySliceTo msg (p : Int) ::
        msgSplitGo (pySliceFrom msg ((p : Int) + 1)) := by
  conv_lhs => rw [msgSplitGo.eq_def]
  split
  · rename_i hp
    rw [h] at hp
    cases hp
  · rename_i q hq
    rw [h] at hq
    cases hq
    rfl

theorem pySliceTo_neg_one (l : List Char) :
    pySliceTo l (-1) = l.dropLast := by
  simp [pySliceTo, List.dropLast_eq_take]

theorem pySliceTo_natCast (l : List Char) (n : Nat) :
    pySliceTo l (n : Int) = l.take n := by
  simp [pySliceTo]

theorem pySliceFrom_natCast (l : List Char) (n : Nat) :
    pySliceFrom l (n : Int) = l.drop n := by
  simp [pySliceFrom]

theorem GoodSentence.ne_nil {s : List Char} (h : GoodSentence s) :
    s ≠ [] := by
  intro hs
  subst hs
  simp [GoodSentence] at h

theorem pyFind_cons_self (c : Char) (l : List Char) :
    pyFind c (c :: l) = 0 := by
  simp [pyFind, findIdx_cons_self]

theorem msgSplitGo_joinChunks :
    ∀ (ss : List (List Char)) (ts : List Char), ss ≠ [] →
      ss.length = ts.length →
      (∀ s ∈ ss, GoodSentence s) →
      (∀ t ∈ ts, t ≠ '$') →
      msgSplitGo (joinChunks ss ts) = ss := by
  intro ss
  induction ss with
  | nil => intro ts h; exact absurd rfl h
  | cons s ss' ih =>
    intro ts _ hlen hgood hterm
    cases ts with
    | nil => simp at hlen
    | cons t ts' =>
      have hs : GoodSentence s := hgood s (by simp)
      obtain ⟨s1, hsval⟩ : ∃ s1, s = '$' :: s1 := by
        cases s with
        | nil => simp [GoodSentence] at hs
        | cons a s1 =>
          have := hs.1
          simp only [List.head?] at this
          exact ⟨s1, by rw [Option.some_inj.mp this]⟩
      have hs1 : '$' ∉ s1 := by
        have := hs.2
        rwa [hsval] at this
      have ht : t ≠ '$' := hterm t (by simp)
      have hstar : '$' ∉ s1 ++ [t] := by
        simp only [List.mem_append, List.mem_singleton, not_or]
        exact ⟨hs1, fun hh => ht hh.symm⟩
      have hjoin : joinChunks (s :: ss') (t :: ts') =
          s ++ t :: joinChunks ss' ts' := rfl
      rw [hjoin]
      have hpos : pyFind '$' (s ++ t :: joinChunks ss' ts') = 0 := by
        rw [hsval]
        simp only [List.cons_append]
        exact pyFind_cons_self _ _
      have hdrop1 : pySliceFrom (s ++ t :: joinChunks ss' ts')
          (pyFind '$' (s ++ t :: joinChunks ss' ts') + 1) =
          s1 ++ t :: joinChunks ss' ts' := by
        rw [hpos]
        rw [pySliceFrom_nonneg _ (by norm_num : (0 : Int) ≤ 0 + 1)]
        rw [show ((0 : Int) + 1).toNat = 1 by norm_num]
        rw [hsval]
        simp
      cases ss' with
      | nil =>
        have hts' : ts' = [] := by
          simp only [List.length_cons] at hlen
          cases ts' <;> simp_all
        subst hts'
        have hrest : joinChunks ([] : List (List Char)) [] = [] := rfl
        rw [hrest] at hdrop1 ⊢
        have hfind : findIdx '$'
            (pySliceFrom (s ++ t :: ([] : List Char))
              (pyFind '$' (s ++ t :: ([] : List Char)) + 1)) = none := by
          rw [hdrop1]
          exact findIdx_not_mem (by simpa using hstar)
        rw [msgSplitGo_none hfind]
        rw [pySliceTo_neg_one]
        rw [show s ++ t :: ([] : List Char) = s ++ [t] from rfl]
        rw [List.dropLast_concat]
      | cons s2 ss'' =>
        cases ts' with
        | nil => simp at hlen
        | cons t2 ts'' =>
          have hs2 : GoodSentence s2 := hgood s2 (by simp)
          obtain ⟨s2t, hs2val⟩ : ∃ s2t, s2 = '$' :: s2t := by
            cases s2 with
            | nil => simp [GoodSentence] at hs2
            | cons a s2t =>
              have := hs2.1
              simp only [List.head?] at this
              exact ⟨s2t, by rw [Option.some_inj.mp this]⟩
          have hrest : joinChunks (s2 :: ss'') (t2 :: ts'') =
              s2 ++ t2 :: joinChunks ss'' ts'' := rfl
          have hfind : findIdx '$'
              (pySliceFrom (s ++ t :: joinChunks (s2 :: ss'') (t2 :: ts''))
                (pyFind '$' (s ++ t :: joinChunks (s2 :: ss'') (t2 :: ts'')) + 1))
              = some s.length := by
            rw [hdrop1]
            rw [show s1 ++ t :: joinChunks (s2 :: ss'') (t2 :: ts'') =
                  (s1 ++ [t]) ++ joinChunks (s2 :: ss'') (t2 :: ts'') by simp]
            rw [findIdx_append_not_mem _ hstar]
            rw [hrest, hs2val]
            simp only [List.cons_append]
            rw [findIdx_cons_self]
            simp [hsval]
          rw [msgSplitGo_some hfind]
          have htake : pySliceTo (s ++ t :: joinChunks (s2 :: ss'') (t2 :: ts''))
              ((s.length : Nat) : Int) = s := by
            rw [pySliceTo_natCast]
            exact List.take_left _ _
          have hdropn : pySliceFrom
              (s ++ t :: joinChunks (s2 :: ss'') (t2 :: ts''))
              (((s.length : Nat) : Int) + 1) =
              joinChunks (s2 :: ss'') (t2 :: ts'') := by
            rw [show (((s.length : Nat) : Int) + 1) = ((s.length + 1 : Nat) : Int)
                  by push_cast; ring]
            rw [pySliceFrom_natCast]
            rw [show s ++ t :: joinChunks (s2 :: ss'') (t2 :: ts'') =
                  (s ++ [t]) ++ joinChunks (s2 :: ss'') (t2 :: ts'') by simp]
            rw [show s.length + 1 = (s ++ [t]).length by simp]
            exact List.drop_left _ _
          rw [htake, hdropn]
          rw [ih (t2 :: ts'') (by simp)
                (by simpa using hlen)
                (fun x hx => hgood x (by simp [hx]))
                (fun x hx => hterm x (by simp at hx; simp [hx]))]

/-! ### Lemmas about the exact decimal model -/

theorem Decimal.toRat_eq_zero (d : Decimal) : d.toRat = 0 ↔ d.num = 0 := by
  have h10 : ((10 : ℚ)) ^ d.exp ≠ 0 := pow_ne_zero _ (by norm_num)
  rw [Decimal.toRat, div_eq_zero_iff]
  simp [h10]

theorem Decimal.add_toRat (a b : Decimal) :
    (a.add b).toRat = a.toRat + b.toRat := by
  have h10 : ((10 : ℚ)) ≠ 0 := by norm_num
  simp only [Decimal.toRat, Decimal.add]
  rw [div_add_div _ _ (pow_ne_zero _ h10) (pow_ne_zero _ h10)]
  rw [pow_add]
  push_cast
  ring_nf

/-! ### Plumbing lemmas for the validator and relay -/

theorem msg_split_of_head_dollar {l : List Char} (h : l.head? = some '$') :
    msg_split l = some (msgSplitGo l) := by
  cases l with
  | nil => simp at h
  | cons c rest =>
    have hc : c = '$' := by simpa using h
    simp [msg_split, hc]

theorem except_bind_ok {ε α β : Type} (x : α) (f : α → Except ε β) :
    (Except.ok x : Except ε α) >>= f = f x := rfl

theorem except_pure_eq {ε α : Type} (x : α) :
    (pure x : Except ε α) = Except.ok x := rfl

/-- C5 (amended): when checksum validation is disabled by the
configuration flag, `clean_nmea_str` accepts exactly the sentences of
length at least 9 that begin with `'$'` after the offset-6 repair; the
`'*'`-presence check (step 4) is skipped entirely, so — contrary to the
claim as stated — a sentence with no `'*'` is accepted. -/
theorem c5_disabled_accepts_iff (s : List Char) :
    (clean_nmea_str false s).2 = true ↔
      (¬ s.length < 9 ∧ (repair6 s)[0]? = some '$') := by
  by_cases h1 : s.length < 9
  · simp [clean_nmea_str, h1]
  · by_cases h2 : (repair6 s)[0]? = some '$'
    · simp [clean_nmea_str, h1, h2]
    · simp [clean_nmea_str, h1, h2]

/-- C3 (helper): the validator accepts, unmodified, any sentence made of a
star-free core followed by `'*'` and the natural-width checksum rendering
that the code itself computes. -/
theorem clean_ok_of (s0 core cks : List Char)
    (hs : s0 = ('$' :: core) ++ '*' :: cks)
    (hstar1 : '*' ∉ core)
    (hstar2 : '*' ∉ cks)
    (hlen : ¬ s0.length < 9)
    (hcomma : s0[6]? = some ',')
    (hcks : toHexUpper (xorBytes core) = cks)
    (hckslen : cks.length = 1 ∨ cks.length = 2) :
    clean_nmea_str true s0 = (s0, true) := by
  have hrep : repair6 s0 = s0 := by
    unfold repair6
    rw [if_neg (not_not_intro hcomma)]
  have hdollar : s0[0]? = some '$' := by rw [hs]; simp
  have hstarcore : '*' ∉ '$' :: core := by
    simp only [List.mem_cons, not_or]
    exact ⟨by decide, hstar1⟩
  have hsplit : splitChar '*' s0 = ['$' :: core, cks] := by
    rw [hs, splitChar_append _ hstarcore, splitChar_not_mem hstar2]
  rcases hckslen with h1 | h2
  · obtain ⟨d, rfl⟩ : ∃ d, cks = [d] := by
      cases cks with
      | nil => simp at h1
      | cons d rest =>
        cases rest with
        | nil => exact ⟨d, rfl⟩
        | cons e r => simp at h1
    simp [clean_nmea_str, hlen, hrep, hdollar, hsplit, hcks, List.headI]
  · obtain ⟨d1, d2, rfl⟩ : ∃ d1 d2, cks = [d1, d2] := by
      cases cks with
      | nil => simp at h2
      | cons d rest =>
        cases rest with
        | nil => simp at h2
        | cons e r =>
          cases r with
          | nil => exact ⟨d, e, rfl⟩
          | cons f r2 => simp at h2
    simp [clean_nmea_str, hlen, hrep, hdollar, hsplit, hcks, List.headI]
    rw [hs]
    simp

/-- C4 (amended): for a sentence of length at least 9 that begins with
`'$'` after the offset-6 repair and contains a `'*'`, when the text after
the `'*'` is shorter than 2 characters the validator does not reject for
that reason and keeps the sentence unmodified (no reassembly), but —
contrary to the claim as stated — the final checksum comparison still
applies: ok is true iff the short raw checksum equals the computed
natural-width checksum rendering. -/
theorem c4_short_checksum_tolerance (s : List Char)
    (hlen : ¬ s.length < 9)
    (hdollar : (repair6 s)[0]? = some '$')
    (hsplitlen : ¬ (splitChar '*' (repair6 s)).length < 2)
    (hshort : ((splitChar '*' (repair6 s))[1]?.getD []).length < 2) :
    (clean_nmea_str true s).1 = repair6 s ∧
      ((clean_nmea_str true s).2 = true ↔
        toHexUpper (xorBytes ((splitChar '*' (repair6 s)).headI.drop 1)) =
          (splitChar '*' (repair6 s))[1]?.getD []) := by
  have htake : List.take 2 ((splitChar '*' (repair6 s))[1]?.getD []) =
      (splitChar '*' (repair6 s))[1]?.getD [] :=
    List.take_of_length_le (by omega)
  by_cases hnew : toHexUpper (xorBytes ((splitChar '*' (repair6 s)).headI.tail)) =
      (splitChar '*' (repair6 s))[1]?.getD []
  · simp [clean_nmea_str, hlen, hdollar, hsplitlen, hshort, htake, hnew]
  · simp [clean_nmea_str, hlen, hdollar, hsplitlen, hshort, htake, hnew]

/-- C7: for every well-formed `$SDDPT` sentence whose field-1
(below-transducer) and field-2 (offset) values parse, the relay computes
below-surface = below-transducer + offset and forwards the sentence (one
encoded send of the stripped sentence plus a newline) if and only if both
the below-transducer depth and the below-surface depth are non-zero; in
particular below-transducer = 0 with offset = 5 is suppressed even though
below-surface = 5 ≠ 0 (see the witness). -/
theorem c7_sddpt_dual_zero_rule (msg f1 f2 : List Char) (T S : Decimal)
    (hid : relayNmeaID msg = str "$SDDPT")
    (hf1 : (relayFields msg)[1]? = some f1)
    (hf2 : (relayFields msg)[2]? = some f2)
    (hT : parseFloat f1 = some T)
    (hS : parseFloat f2 = some S) :
    relayMessage msg = Except.ok
      (if T.toRat ≠ 0 ∧ T.toRat + S.toRat ≠ 0
       then [⟨pyStrip msg ++ ['\n'], true⟩] else []) := by
  have hmsg : msg ≠ [] := by
    intro h
    subst h
    exact absurd hid (by decide)
  have hlen0 : ¬ msg.length = 0 := by
    simpa using hmsg
  unfold relayNmeaID at hid
  have h1 : T.num ≠ 0 ↔ T.toRat ≠ 0 := (not_congr (Decimal.toRat_eq_zero T)).symm
  have h2 : (T.add S).num ≠ 0 ↔ T.toRat + S.toRat ≠ 0 := by
    rw [← Decimal.add_toRat]
    exact (not_congr (Decimal.toRat_eq_zero (T.add S))).symm
  simp only [relayMessage, hid, if_neg hlen0]
  rw [if_neg (by decide), if_neg (by decide), if_neg (by decide), if_neg (by decide)]
  simp only [getField, hf1, hf2, toFloat, hT, hS, except_bind_ok, except_pure_eq]
  rw [if_congr (and_congr h1 h2) rfl rfl]
  rw [apply_ite (Except.ok : List Send → Except Unit (List Send))]

/-! ### The remaining claims -/

/-- C1 (code bug): `"$FKDBS,1,2,3,0.0,M*27"` is a well-formed `$FKDBS`
sentence (the validator accepts it unchanged) whose comma-field 4 after
the last-field truncation is `"0.0"`, a depth parsing to the zero value
`0/10`; the claim says such a sentence is never relayed, but
`relayMessage` performs exactly one successful (encoded) send of it: line
517 of the source omits `"$FKDBS"` from the depth-datagram list, so the
sentence takes the unconditional pass-through branch and the dedicated
`$FKDBS` depth-check branch (lines 576–591) is unreachable. -/
theorem c1_fkdbs_zero_depth_still_relayed :
    clean_nmea_str true (str "$FKDBS,1,2,3,0.0,M*27") =
      (str "$FKDBS,1,2,3,0.0,M*27", true) ∧
    (relayFields (str "$FKDBS,1,2,3,0.0,M*27"))[4]? = some (str "0.0") ∧
    parseFloat (str "0.0") = some ⟨0, 1⟩ ∧
    relayMessage (str "$FKDBS,1,2,3,0.0,M*27") =
      Except.ok [⟨str "$FKDBS,1,2,3,0.0,M*27" ++ ['\n'], true⟩] ∧
    successfulSends [⟨str "$FKDBS,1,2,3,0.0,M*27" ++ ['\n'], true⟩] = 1 := by
  decide

/-- C2 (code bug): a well-formed `$SDDBS` sentence with zero field-3 depth
sends nothing, as claimed; but the nonzero-depth sentence
`"$SDDBS,,,12.3,,*70"` results in one send *attempt* whose payload is the
unencoded Python `str` (the `$SDDBS` branch at line 572 calls
`sendto(msg, mvpAddr)` without `.encode()`), which in Python 3 raises
`TypeError` inside the `try`, so the number of successful sends is 0, not
exactly one as the claim states. -/
theorem c2_sddbs_send_never_succeeds :
    clean_nmea_str true (str "$SDDBS,,,0.0,,*40") =
      (str "$SDDBS,,,0.0,,*40", true) ∧
    relayMessage (str "$SDDBS,,,0.0,,*40") = Except.ok [] ∧
    clean_nmea_str true (str "$SDDBS,,,12.3,,*70") =
      (str "$SDDBS,,,12.3,,*70", true) ∧
    relayMessage (str "$SDDBS,,,12.3,,*70") =
      Except.ok [⟨str "$SDDBS,,,12.3,,*70", false⟩] ∧
    successfulSends [⟨str "$SDDBS,,,12.3,,*70", false⟩] = 0 := by
  decide

/-- C3 (counterexample): the claim quantifies over sentences whose
checksum is the *2-digit* uppercase hex rendering of the XOR; the XOR of
`"AAAAA,m"` is 0, whose 2-digit rendering is `"00"`, yet the validator
rejects `"$AAAAA,m*00"` because the code renders checksums with
`hex(n)[2:]` (no zero padding, so it computes `"0"` and the comparison
fails). -/
theorem c3_padded_checksum_rejected :
    xorBytes (str "AAAAA,m") = 0 ∧
    clean_nmea_str true (str "$AAAAA,m*00") = (str "$AAAAA,m*00", false) := by
  decide

/-- C3 (amended): the round-trip holds with the checksum rendered at
natural width, exactly as the code computes it (`hex(xor)[2:].upper()`,
no zero padding): for every star-free core with byte-XOR below 256, the
sentence `'$' :: core ++ '*' :: rendering` of length at least 9 whose
offset 6 is a comma is accepted with the cleaned sentence equal to the
input.  (When the XOR is below 16 the rendering has one digit and the
sentence is accepted through the short-checksum path, again unmodified.) -/
theorem c3_roundtrip_natural_width (core : List Char)
    (hstar : '*' ∉ core)
    (hxor : xorBytes core < 256)
    (hlen : ¬ (('$' :: core) ++ '*' :: toHexUpper (xorBytes core)).length < 9)
    (hcomma : (('$' :: core) ++ '*' :: toHexUpper (xorBytes core))[6]? = some ',') :
    clean_nmea_str true (('$' :: core) ++ '*' :: toHexUpper (xorBytes core)) =
      (('$' :: core) ++ '*' :: toHexUpper (xorBytes core), true) := by
  apply clean_ok_of _ core (toHexUpper (xorBytes core)) rfl hstar
    (star_not_mem_toHexUpper hxor) hlen hcomma rfl
  rcases Nat.lt_or_ge (xorBytes core) 16 with hlt | hge
  · left
    rw [toHexUpper_of_lt hlt]
    rfl
  · right
    rw [toHexUpper_of_mid hge hxor]
    rfl

/-- C3 witness: the amended round-trip at the concrete core
`"AAAAA,AB"`, whose XOR is `0x6E`. -/
theorem c3_roundtrip_natural_width_witness :
    clean_nmea_str true (str "$AAAAA,AB*6E") = (str "$AAAAA,AB*6E", true) := by
  have h := c3_roundtrip_natural_width (str "AAAAA,AB")
    (by decide) (by decide) (by decide) (by decide)
  rw [show (('$' :: str "AAAAA,AB") ++ '*' :: toHexUpper (xorBytes (str "AAAAA,AB")))
        = str "$AAAAA,AB*6E" from by decide] at h
  exact h

/-- C4 (counterexample): `"$AAAAA,A*"` has length 9, begins with `'$'`,
contains a `'*'`, and the text after the `'*'` is empty (shorter than 2
characters), yet the validator rejects it (the computed checksum `"2C"`
differs from the empty raw checksum), contradicting the claim that such
sentences are always accepted as-is with ok=true. -/
theorem c4_short_checksum_rejected_on_mismatch :
    clean_nmea_str true (str "$AAAAA,A*") = (str "$AAAAA,A*", false) := by
  decide

/-- C4 witness: the amended tolerance at `"$AAAAA,m*0"`, whose 1-character
raw checksum `"0"` equals the computed natural-width rendering, so the
sentence is accepted unmodified. -/
theorem c4_short_checksum_tolerance_witness :
    (clean_nmea_str true (str "$AAAAA,m*0")).1 = repair6 (str "$AAAAA,m*0") ∧
    (clean_nmea_str true (str "$AAAAA,m*0")).2 = true := by
  have h := c4_short_checksum_tolerance (str "$AAAAA,m*0")
    (by decide) (by decide) (by decide) (by decide)
  exact ⟨h.1, h.2.mpr (by decide)⟩

/-- C5 (counterexample): with checksum validation disabled,
`"$AAAAA,AB"` — a sentence of length 9 starting with `'$'` but containing
no `'*'` — is accepted, contradicting the claim that a sentence with no
`'*'` is rejected even when checksum validation is disabled. -/
theorem c5_no_star_accepted_when_disabled :
    clean_nmea_str false (str "$AAAAA,AB") = (str "$AAAAA,AB", true) ∧
    '*' ∉ str "$AAAAA,AB" := by
  decide

/-- C6 (code bug): `"$SDDBS,,,QQQ,,*3F"` is a well-formed depth-bearing
sentence whose depth field `"QQQ"` does not parse as a number; `float()`
raises a `ValueError` that is *not* caught inside `relayMessage` (only the
`sendto` calls sit in `try` blocks), so the exception escapes
(`Except.error ()`); the relay stage of the Dispatch Loop then stops —
the catch-all `except` in `periodicCall` runs `endApplication`, clearing
the `running` flag — and the following valid sentence, which on its own
would be processed (last conjunct), is never relayed.  The claim that the
implementation merely skips the sentence and continues is therefore
false on the code. -/
theorem c6_bad_depth_shuts_down_dispatch :
    clean_nmea_str true (str "$SDDBS,,,QQQ,,*3F") =
      (str "$SDDBS,,,QQQ,,*3F", true) ∧
    parseFloat (str "QQQ") = none ∧
    relayMessage (str "$SDDBS,,,QQQ,,*3F") = Except.error () ∧
    dispatchRelay [str "$SDDBS,,,QQQ,,*3F", str "$SDDBS,,,12.3,,*70"] =
      ([], false) ∧
    dispatchRelay [str "$SDDBS,,,12.3,,*70"] =
      ([⟨str "$SDDBS,,,12.3,,*70", false⟩], true) := by
  decide

/-- C7 witness: `"$SDDPT,0.0,5.0,*7E"` has below-transducer 0 and offset
5, so below-surface is 5 ≠ 0, yet the relay suppresses it because both
values must be non-zero. -/
theorem c7_sddpt_dual_zero_rule_witness :
    relayMessage (str "$SDDPT,0.0,5.0,*7E") = Except.ok [] := by
  have h := c7_sddpt_dual_zero_rule (str "$SDDPT,0.0,5.0,*7E")
    (str "0.0") (str "5.0") ⟨0, 1⟩ ⟨50, 1⟩
    (by decide) (by decide) (by decide) (by decide) (by decide)
  rw [h]
  simp [Decimal.toRat]

/-- C8: for every chunk assembled from sentences that begin with `'$'`
(and contain no further `'$'`), each followed by one terminator byte,
`msg_split` emits exactly the sentences: each span runs from its `'$'` up
to but excluding the single byte preceding the next `'$'`, and the final
sentence likewise loses its own trailing byte. -/
theorem c8_framer_splits_at_dollar (ss : List (List Char)) (ts : List Char)
    (hne : ss ≠ []) (hlen : ss.length = ts.length)
    (hgood : ∀ s ∈ ss, GoodSentence s) (hterm : ∀ t ∈ ts, t ≠ '$') :
    msg_split (joinChunks ss ts) = some ss := by
  have hhead : (joinChunks ss ts).head? = some '$' := by
    cases ss with
    | nil => exact absurd rfl hne
    | cons s ss' =>
      cases ts with
      | nil => simp at hlen
      | cons t ts' =>
        have hs := hgood s (by simp)
        cases s with
        | nil => simp [GoodSentence] at hs
        | cons a s1 =>
          have ha : a = '$' := by
            have := hs.1
            simpa using this
          subst ha
          rfl
  rw [msg_split_of_head_dollar hhead,
    msgSplitGo_joinChunks ss ts hne hlen hgood hterm]

/-- C8 witness: the claim's concrete example — the chunk
`"$AA,1*1B\n$BB,2*2C\n"` frames to exactly the two sentences
`"$AA,1*1B"` and `"$BB,2*2C"` (trailing newline stripped from each). -/
theorem c8_framer_splits_at_dollar_witness :
    msg_split (str "$AA,1*1B\n$BB,2*2C\n") =
      some [str "$AA,1*1B", str "$BB,2*2C"] := by
  have h := c8_framer_splits_at_dollar [str "$AA,1*1B", str "$BB,2*2C"]
    ['\n', '\n'] (by decide) (by decide) (by decide) (by decide)
  rw [show joinChunks [str "$AA,1*1B", str "$BB,2*2C"] ['\n', '\n']
        = str "$AA,1*1B\n$BB,2*2C\n" from by decide] at h
  exact h

/-- C9 (counterexample): on the empty chunk `msg_split` fails —
`msg[0]` raises an `IndexError` (modelled as `none`) rather than
returning the empty sequence as the claim states. -/
theorem c9_empty_chunk_raises : msg_split [] = none := rfl

/-- C9 (amended): every *non-empty* chunk that does not begin with `'$'`
makes `msg_split` return the empty sequence without failing; the empty
chunk instead raises an `IndexError` at `msg[0]` (caught by the caller's
bare `except`). -/
theorem c9_nonempty_nondollar_empty_seq (msg : List Char) (h1 : msg ≠ [])
    (h2 : msg.head? ≠ some '$') : msg_split msg = some [] := by
  cases msg with
  | nil => exact absurd rfl h1
  | cons c rest =>
    have hc : ¬ c = '$' := by simpa using h2
    simp [msg_split, hc]

/-- C9 witness: the non-`'$'` chunk `"noise"` is discarded as an empty
sequence. -/
theorem c9_nonempty_nondollar_empty_seq_witness :
    msg_split (str "noise") = some [] :=
  c9_nonempty_nondollar_empty_seq (str "noise") (by decide) (by decide)

/-- C10: before any depth value is extracted, `relayMessage` splits the
sentence on commas and replaces the last field by itself with its final
three characters removed (`fields[-1] = fields[-1][:-3]`), leaving every
other field untouched; a last field of three or fewer characters
therefore becomes the empty string.  (The talker identifier is read from
field 0 *before* the truncation, so it is used verbatim even when the
sentence has a single field.) -/
theorem c10_last_field_truncation (msg : List Char) :
    relayFields msg =
      (splitChar ',' msg).dropLast ++
        [dropLast3 ((splitChar ',' msg).getLastD [])] ∧
    (((splitChar ',' msg).getLastD []).length ≤ 3 →
      relayFields msg = (splitChar ',' msg).dropLast ++ [[]]) := by
  have h1 : relayFields msg =
      (splitChar ',' msg).dropLast ++
        [dropLast3 ((splitChar ',' msg).getLastD [])] := by
    simp only [relayFields]
    exact set_last_eq_dropLast_append _ _ (splitChar_ne_nil ',' msg)
  refine ⟨h1, fun hl => ?_⟩
  rw [h1]
  have h2 : dropLast3 ((splitChar ',' msg).getLastD []) = [] := by
    unfold dropLast3
    have h3 : ((splitChar ',' msg).getLastD []).length - 3 = 0 := by omega
    rw [h3]
    exact List.take_zero _
  rw [h2]

/-- C10 witness: on `"$AA,1*X"` the last field `"1*X"` (three characters)
becomes empty while field 0 stays intact. -/
theorem c10_last_field_truncation_witness :
    relayFields (str "$AA,1*X") = [str "$AA", []] := by
  have h := (c10_last_field_truncation (str "$AA,1*X")).2 (by decide)
  rw [show (splitChar ',' (str "$AA,1*X")).dropLast = [str "$AA"] from by decide] at h
  simpa using h

end MvpRelay
